import Mathlib

/-!
Verification development for the Lunori journaling client
(`src/frontend/app.js`).  The definitions below are a shallow embedding of
the client-side recording/transcription session coordinator, the entry
cache with lazy hydration and search, and the dashboard date helpers
(weekly top-emotion counts and the day-streak with one grace day).

Conventions of the embedding:
* audio fragments and blobs are byte lists (`List Nat`);
* the DOM is reduced to the pieces of UI state the coordinator writes
  (status line, transcript box, record-button label);
* asynchronous handlers become pure state transformers: the body of each
  JS handler runs without internal suspension points, so each handler is
  one atomic step of the single-threaded event loop;
* network calls are modelled by their observable submissions (a trace of
  `StopAction`s for the stop handshake, a `Submission` list for chunk
  uploads) and by oracle parameters for their responses.
-/

namespace Lunori

/-! ## Date model

`app.js` works with JS `Date` values at two granularities: full
timestamps (compared with `<`) and local calendar days (the `ymd`
string key).  A timestamp is modelled as a calendar day index (`day`,
an integer, so that scanning backwards never bottoms out) plus a
time-of-day component (`tod`); the JS `Date` order is the lexicographic
order on the pair, and the `ymd` key of a timestamp is its `day`
(distinct local days give distinct `ymd` strings, so an integer key is
a faithful model of the string key). -/

structure LDate where
  day : Int
  tod : Nat
  deriving DecidableEq, Repr

/-- JS `Date` comparison `a < b` (timestamp order). -/
def dateLt (a b : LDate) : Bool :=
  a.day < b.day || (a.day == b.day && a.tod < b.tod)

/-- The `created_at` field of an entry as the client sees it: a missing or
empty string (JS falsy), a non-empty string that does not parse as a
date, or a valid timestamp. -/
inductive CreatedAt where
  | empty : CreatedAt
  | invalid (raw : String) : CreatedAt
  | valid (day : Int) (tod : Nat) : CreatedAt
  deriving DecidableEq, Repr

/-- One entry of `emotions_top3`. Scores never influence the claims under
study, so they are kept as abstract naturals. -/
structure Emotion where
  label : String
  score : Nat
  deriving DecidableEq, Repr

/-- The slice of a cached `/entries` list item that the dashboard helpers
read: its `created_at` and its `emotions_top3`. -/
structure EntryMeta where
  created_at : CreatedAt
  emotions_top3 : List Emotion
  deriving DecidableEq, Repr

/-- `parseLocalDateFromISOish` (app.js line 187):
`if (!s) return null; const d = new Date(s); return isNaN(d) ? new Date() : d;`
A falsy string gives `null`; an unparseable non-empty string gives the
current moment `now`; otherwise the parsed timestamp. -/
def parseLocalDateFromISOish (s : CreatedAt) (now : LDate) : Option LDate :=
  match s with
  | CreatedAt.empty => none
  | CreatedAt.invalid _ => some now
  | CreatedAt.valid d t => some ⟨d, t⟩

/-- `ymd` (app.js line 188): the local-calendar-day key of a timestamp. -/
def ymd (d : LDate) : Int := d.day

/-- `daysAgoDate(n)` (app.js line 189): midnight of the local day `n` days
before today. -/
def daysAgoDate (n : Nat) (now : LDate) : LDate := ⟨now.day - n, 0⟩

/-- `computeWeeklyTop1Counts` (app.js lines 192-202) viewed as the lookup
function of the counts object it builds: the number of items that
(1) have a parseable/defaulted date not before midnight six days ago, and
(2) whose first `emotions_top3` element carries the (truthy) label
`label`.  For `label = ""` the JS truthiness test on `top.label` skips
the item, so the count is `0`. -/
def weeklyTop1Count (items : List EntryMeta) (now : LDate) (label : String) : Nat :=
  (items.filter (fun it =>
    match parseLocalDateFromISOish it.created_at now with
    | none => false
    | some d =>
      if dateLt d (daysAgoDate 6 now) then false
      else
        match it.emotions_top3.head? with
        | some e => label != "" && e.label == label
        | none => false)).length

/-- The `ymd` day key a streak item contributes, via
`ymd(parseLocalDateFromISOish(it.created_at))`.  When `created_at` is
falsy the JS code would pass `null` to `ymd` and throw; the `getD now`
branch below is unreachable for server-produced entries (which always
carry `created_at`), and the streak theorems never instantiate it. -/
def entryDayKey (it : EntryMeta) (now : LDate) : Int :=
  ymd ((parseLocalDateFromISOish it.created_at now).getD now)

/-- The JS `Set` of `ymd` day keys built at the top of
`computeStreakWithGrace` (app.js line 239).  Only membership of the set
is ever consulted, so a list queried with `contains` is a faithful
model. -/
def streakDaySet (items : List EntryMeta) (now : LDate) : List Int :=
  items.map (fun it => entryDayKey it now)

/-- The scan loop of `computeStreakWithGrace` (app.js lines 240-247):
walk backwards one day at a time for at most `fuel` (= 365) days; a
present day increments the streak and clears the consecutive-miss
counter; a missed day increments the miss counter and stops the scan
once it reaches 2. -/
def streakLoop (present : List Int) : Nat → Int → Nat → Nat → Nat
  | 0, _, _, streak => streak
  | Nat.succ fuel, d, misses, streak =>
    if present.contains d then streakLoop present fuel (d - 1) 0 (streak + 1)
    else if misses + 1 ≥ 2 then streak
    else streakLoop present fuel (d - 1) (misses + 1) streak

/-- `computeStreakWithGrace` (app.js lines 237-249). `now` plays the role
of `new Date()`; the scan starts at today (midnight normalisation only
discards `tod`, which `ymd` ignores anyway). -/
def computeStreakWithGrace (items : List EntryMeta) (now : LDate) : Nat :=
  streakLoop (streakDaySet items now) 365 now.day 0 0

/-- Modelled from the spec: the day-streak scan exactly as claim C6 words
it — scanning backward from today over at most 365 days, incrementing
the streak and resetting the consecutive-miss counter on each day with
at least one entry, incrementing the consecutive-miss counter on each
empty day, and stopping only when two consecutive missed days occur.
Stated over a membership predicate so that it can be compared with the
code-side `streakLoop` over the day-key set. -/
def specStreakScan (isPresent : Int → Bool) : Nat → Int → Nat → Nat → Nat
  | 0, _, _, streak => streak
  | Nat.succ fuel, d, misses, streak =>
    if isPresent d then specStreakScan isPresent fuel (d - 1) 0 (streak + 1)
    else
      let m := misses + 1
      if m = 2 then streak
      else specStreakScan isPresent fuel (d - 1) m streak

/-! ## String helpers

JS string primitives used by the entry cache and the search path,
re-implemented over `List Char` so that every theorem can be evaluated
by the kernel.  Lowercasing uses `Char.toLower`, which agrees with JS
`toLowerCase` on the ASCII data these functions see. -/

/-- JS `String.prototype.trim`. -/
def jsTrim (s : String) : String :=
  String.mk (((s.data.dropWhile Char.isWhitespace).reverse.dropWhile
      Char.isWhitespace).reverse)

/-- JS `String.prototype.toLowerCase`. -/
def jsToLowerCase (s : String) : String :=
  String.mk (s.data.map Char.toLower)

/-- Does `hay` start with `needle`? (helper for the substring test). -/
def startsWithList (needle hay : List Char) : Bool :=
  match needle, hay with
  | [], _ => true
  | _ :: _, [] => false
  | a :: as, b :: bs => a == b && startsWithList as bs

/-- Does `needle` occur contiguously inside `hay`? -/
def occursIn (needle : List Char) : List Char → Bool
  | [] => needle.isEmpty
  | c :: cs => startsWithList needle (c :: cs) || occursIn needle cs

/-- JS `haystack.includes(needle)`: substring test. -/
def strIncludes (haystack needle : String) : Bool :=
  occursIn needle.data haystack.data

/-- JS `Array.prototype.join(sep)` on a string array. -/
def jsJoin (sep : String) : List String → String
  | [] => ""
  | [x] => x
  | x :: xs => x ++ sep ++ jsJoin sep xs

/-- Splitter underlying both `split(/\s+/).filter(Boolean)` and
`split(/[^a-z0-9]+/).filter(Boolean)`: the maximal non-empty runs of
characters satisfying `p`, in order.  `acc` holds the current run in
reverse. -/
def splitRunsAux (p : Char → Bool) (acc : List Char) : List Char → List (List Char)
  | [] => if acc.isEmpty then [] else [acc.reverse]
  | c :: cs =>
    if p c then splitRunsAux p (c :: acc) cs
    else if acc.isEmpty then splitRunsAux p [] cs
    else acc.reverse :: splitRunsAux p [] cs

/-- The maximal runs of `p`-characters of a string, as strings. -/
def splitKeepRuns (p : Char → Bool) (s : String) : List String :=
  (splitRunsAux p [] s.data).map (fun cs => String.mk cs)

/-- Characters kept by the caption tokeniser `split(/[^a-z0-9]+/)` (the
caption has already been lowercased when it is split). -/
def isLowerAlnumChar (c : Char) : Bool :=
  ('a' ≤ c && c ≤ 'z') || ('0' ≤ c && c ≤ '9')

/-- Query tokenisation `q.toLowerCase().split(/\s+/).filter(Boolean)`
(app.js line 481). -/
def queryTerms (q : String) : List String :=
  splitKeepRuns (fun c => !c.isWhitespace) (jsToLowerCase q)

/-- Order-preserving deduplication with a seen-accumulator:
`Array.from(new Set(tags))` keeps the first occurrence of each element
in insertion order. -/
def dedupFirstAux (seen : List String) : List String → List String
  | [] => []
  | a :: l =>
    if seen.contains a then dedupFirstAux seen l
    else a :: dedupFirstAux (a :: seen) l

/-- JS `Array.from(new Set(tags))`. -/
def dedupFirst (l : List String) : List String := dedupFirstAux [] l

/-! ## Entry cache and search (app.js lines 446-493)

The remote entry store (`GET /entries/:id`) is an oracle
`Nat → FullEntry`; `ensureEntryCached` consults it at most once per
cached entry and memoises the result on the entry. -/

/-- One image of a full entry as returned by the store:
`{ filename, caption, tags }`. -/
structure ImageFull where
  filename : String
  caption : Option String
  tags : List String
  deriving DecidableEq, Repr

/-- The body of `GET /entries/:id` as `ensureEntryCached` reads it. -/
structure FullEntry where
  transcript : Option String
  images : List ImageFull
  emotionsAll : Option (List (String × Nat))
  deriving DecidableEq, Repr

/-- A cached `/entries` list item together with the lazily attached
fields `_transcript`, `_imageTags` and `_emotions_all`.  `none` models
the field being absent (so that `typeof it._transcript !== 'string'`
respectively `!Array.isArray(it._imageTags)` hold). -/
structure CacheEntry where
  id : Nat
  tscript : Option String
  imageTags : Option (List String)
  emotionsAll : Option (List (String × Nat))
  deriving DecidableEq, Repr

/-- The image-tag tokens one image contributes during hydration
(app.js lines 462-467): its tags lowercased, then — when the caption is
truthy — the alphanumeric words of the lowercased caption. -/
def imageTagTokens (im : ImageFull) : List String :=
  im.tags.map jsToLowerCase ++
    (match im.caption with
     | some c => if c = "" then [] else splitKeepRuns isLowerAlnumChar (jsToLowerCase c)
     | none => [])

/-- The derived `_imageTags` of an entry: all images' tokens, first
occurrences kept (`Array.from(new Set(tags))`). -/
def deriveImageTags (images : List ImageFull) : List String :=
  dedupFirst (images.map imageTagTokens).flatten

/-- `ensureEntryCached` (app.js lines 457-472).  Returns the (possibly
hydrated) entry together with `true` iff the remote store was consulted.
The fetch happens exactly when `typeof it._transcript !== 'string' ||
!Array.isArray(it._imageTags)`; it then sets `_transcript` to
`full.transcript || ''`, `_imageTags` to the derived token set and
`_emotions_all` to `full.emotions_all || null`. -/
def ensureEntryCached (store : Nat → FullEntry) (it : CacheEntry) :
    CacheEntry × Bool :=
  if it.tscript.isSome && it.imageTags.isSome then (it, false)
  else
    let full := store it.id
    ({ it with
        tscript := some (full.transcript.getD "")
        imageTags := some (deriveImageTags full.images)
        emotionsAll := full.emotionsAll }, true)

/-- The per-entry search predicate of `renderHistoryWithQuery`
(app.js lines 485-487): every term is a substring of the lowercased
transcript or of the space-joined image-tag list. -/
def entryMatches (terms : List String) (it : CacheEntry) : Bool :=
  let text := jsToLowerCase (it.tscript.getD "")
  let tags := jsJoin " " (it.imageTags.getD [])
  terms.all (fun t => strIncludes text t || strIncludes tags t)

/-- `renderHistoryWithQuery` (app.js lines 474-493), up to the final DOM
rendering: returns the cache after hydration together with the list
passed to `renderHistoryList`.  A query that trims to the empty string
shows the whole cached list and hydrates nothing; otherwise every
entry is hydrated first and then filtered by `entryMatches`. -/
def renderHistoryWithQuery (store : Nat → FullEntry) (query : String)
    (items : List CacheEntry) : List CacheEntry × List CacheEntry :=
  let q := jsTrim query
  if q = "" then (items, items)
  else
    let terms := queryTerms q
    let hydrated := items.map (fun it => (ensureEntryCached store it).1)
    (hydrated, hydrated.filter (entryMatches terms))

/-! ## Recording session coordinator (app.js lines 649-780)

The coordinator's mutable globals (`liveSessionId`, `recordedChunks`,
`pendingUploads`, `chunkCounter`) form `AppState`; the DOM pieces it
writes form `World`.  A chunk upload is observable as a `Submission`
(the `FormData` of the POST to `/transcribe/chunk`); the retained
promise handle of an upload is modelled by the submission itself.
Session identifiers (`crypto.randomUUID()`) are opaque tokens, modelled
as naturals. -/

/-- Audio fragments and blobs are byte lists; a `Blob` of several
fragments is their concatenation. -/
abbrev Fragment := List Nat

/-- The observable content of one POST to `/transcribe/chunk`
(app.js lines 663-666): the tagged session id, the chunk index and the
cumulative audio payload. -/
structure Submission where
  sessionId : Option Nat
  index : Nat
  payload : Fragment
  deriving DecidableEq, Repr

/-- The coordinator's session state: the globals of app.js lines 78 and
653-654 plus `recordedChunks` (line 72). -/
structure AppState where
  liveSessionId : Option Nat
  recordedChunks : List Fragment
  pendingUploads : List Submission
  chunkCounter : Nat
  deriving DecidableEq, Repr

/-- The cap bookkeeping of app.js lines 684-686: after a push, keep only
the most recent 8 retained handles (`pendingUploads.slice(-8)`). -/
def capPending (l : List Submission) : List Submission :=
  if l.length > 8 then l.drop (l.length - 8) else l

/-- `uploadCumulativeBlob` (app.js lines 657-687) as a state transformer:
build the cumulative blob from all recorded chunks; if it is empty do
nothing; otherwise submit it tagged `(liveSessionId, chunkCounter++)`,
retain the handle and apply the 8-handle cap.  The returned `Option` is
the submission that went on the wire (the fetch itself; its response is
handled separately by `chunkResponseHandler`). -/
def uploadCumulativeBlob (s : AppState) : AppState × Option Submission :=
  let blob := s.recordedChunks.flatten
  if blob.isEmpty then (s, none)
  else
    let sub : Submission := ⟨s.liveSessionId, s.chunkCounter, blob⟩
    ({ s with
        chunkCounter := s.chunkCounter + 1
        pendingUploads := capPending (s.pendingUploads ++ [sub]) }, sub)

/-- `mediaRecorder.ondataavailable` (app.js lines 761-765): ignore empty
slices, otherwise append the fragment to the cumulative buffer and
fire a cumulative upload (fire-and-forget; the handler body has no
suspension point before the fetch is issued, so it is one atomic
step). -/
def ondataavailable (s : AppState) (data : Fragment) : AppState × Option Submission :=
  if data.isEmpty then (s, none)
  else uploadCumulativeBlob { s with recordedChunks := s.recordedChunks ++ [data] }

/-- The capture loop: deliver the fragments of `frags` to
`ondataavailable` in order, collecting the submissions that were
issued.  This covers every interleaving of automatic 4-second slices
while recording: each slice is one event of the single-threaded loop. -/
def runFrags (s : AppState) : List Fragment → AppState × List Submission
  | [] => (s, [])
  | f :: rest =>
    let step := ondataavailable s f
    let tail := runFrags step.1 rest
    (tail.1, step.2.toList ++ tail.2)

/-- The session state allocated by the start branch (app.js lines
747-750): fresh identifier, empty chunk sequence, empty in-flight set,
zero counter. -/
def startSession (sid : Nat) : AppState :=
  { liveSessionId := some sid
    recordedChunks := []
    pendingUploads := []
    chunkCounter := 0 }

/-- The DOM/UI state the coordinator writes, plus the recorder activity
flag (`mediaRecorder && mediaRecorder.state === 'recording'`) and
`lastTranscribe`. -/
structure World where
  app : AppState
  recorderRecording : Bool
  btnLabel : String
  statusLine : String
  transcriptBox : String
  lastTranscribe : Option (Option String × String)
  deriving DecidableEq, Repr

/-- The status-line text used while live transcribing. -/
def liveStatus (sid : Option Nat) : String :=
  "🔴 Live transcribing… session " ++ toString (sid.getD 0)

/-- The start branch of the record-button handler (app.js lines 745-773)
after `getUserMedia` succeeded: reset all session state, allocate the
fresh identifier `sid`, clear the transcript box and switch the button
to stop. -/
def startClick (w : World) (sid : Nat) : World :=
  { w with
      app := startSession sid
      recorderRecording := true
      btnLabel := "■ Stop"
      statusLine := liveStatus (some sid)
      transcriptBox := "" }

/-- The response handler of a chunk upload (app.js lines 669-680).
`respSessionId` is the session identifier the request was tagged with;
the handler deliberately receives it to exhibit that the code never
reads it back: the only guards are the recorder being in the
`recording` state and the trimmed transcript being non-empty.  A
non-ok response throws and is swallowed by `.catch` (no mutation). -/
def chunkResponseHandler (w : World) (_respSessionId : Option Nat) (ok : Bool)
    (transcript : String) : World :=
  if !ok then w
  else
    let t := jsTrim transcript
    if w.recorderRecording && !(t == "") then
      { w with
          statusLine := liveStatus w.app.liveSessionId
          transcriptBox := t }
    else w

/-- The observable steps of the stop branch of the record-button handler,
in the order they are awaited. -/
inductive StopAction where
  | flushWait : StopAction
  | deviceReleaseWait : StopAction
  | submitUpload (sub : Submission) : StopAction
  | settleWait (handles : List Submission) : StopAction
  | finalizeCall (sessionId : Option Nat) : StopAction
  deriving DecidableEq, Repr

/-- Is a stop action the finalize call? -/
def isFinalizeCall : StopAction → Bool
  | StopAction.finalizeCall _ => true
  | _ => false

/-- Session state after the forced flush delivered `flushData` (the
`requestData()` of app.js lines 697-701 triggers `ondataavailable`
once before `flushed` resolves). -/
def stopFlushedState (s : AppState) (flushData : Fragment) : AppState :=
  (ondataavailable s flushData).1

/-- Session state after the final cumulative upload of step 3
(app.js line 711). -/
def stopUploadedState (s : AppState) (flushData : Fragment) : AppState :=
  (uploadCumulativeBlob (stopFlushedState s flushData)).1

/-- The ordered observable steps of one run of the stop branch: the
flush-induced upload (if the flushed fragment was non-empty), the wait
for the flushed fragment, the wait for the device release, the final
cumulative upload (if the cumulative blob was non-empty), the
settle-wait on the retained handles (if any are retained), and the
finalize call carrying only the session identifier. -/
def stopTrace (s0 : AppState) (flushData : Fragment) : List StopAction :=
  let flush := ondataavailable s0 flushData
  let finalUp := uploadCumulativeBlob flush.1
  let s2 := finalUp.1
  flush.2.toList.map StopAction.submitUpload
    ++ [StopAction.flushWait, StopAction.deviceReleaseWait]
    ++ finalUp.2.toList.map StopAction.submitUpload
    ++ (if s2.pendingUploads.isEmpty then []
        else [StopAction.settleWait s2.pendingUploads])
    ++ [StopAction.finalizeCall s0.liveSessionId]

/-- The stop branch of the record-button handler (app.js lines 692-742
and the catch at lines 775-779), parameterised by the response of the
finalize call.  Steps, in order: (1) force a final `dataavailable` and
wait for it; (2) stop the recorder and wait for the device-release
confirmation; (3) issue one final cumulative upload; (4) if any upload
handles are retained, wait for them all to settle; (5) POST
`/transcribe/finalize` with body `{ session_id: liveSessionId }`.  On a
non-ok finalize response the handler throws; the catch only writes the
error message — it does not reset the session state. -/
def stopHandler (w : World) (flushData : Fragment) (finalizeOk : Bool)
    (finalTranscript : String) (respWords : Nat) (audioFilename : Option String)
    (errMsg : String) : World × List StopAction :=
  let s0 := w.app
  let s2 := stopUploadedState s0 flushData
  let trace := stopTrace s0 flushData
  if finalizeOk then
    ({ app := { liveSessionId := none
                recordedChunks := []
                pendingUploads := []
                chunkCounter := 0 }
       recorderRecording := false
       btnLabel := "● Record"
       statusLine := "Final transcript (" ++ toString respWords ++ " words)"
       transcriptBox := finalTranscript
       lastTranscribe := some (audioFilename, finalTranscript) }, trace)
  else
    ({ app := s2
       recorderRecording := false
       btnLabel := "● Record"
       statusLine := ""
       transcriptBox := "❌ Mic error: " ++ errMsg
       lastTranscribe := w.lastTranscribe }, trace)

/-- The world at stop time after a whole recording phase: session `sid`
started, then the fragments of `frags` captured. -/
def worldAfterRecord (sid : Nat) (frags : List Fragment) : World :=
  { app := (runFrags (startSession sid) frags).1
    recorderRecording := true
    btnLabel := "■ Stop"
    statusLine := liveStatus (some sid)
    transcriptBox := ""
    lastTranscribe := none }

/-! ## Concrete data used by counterexamples and witnesses -/

/-- The entry store of spec §8 property 4: three entries with the texts
and image tags of the concrete search example. -/
def exStore : Nat → FullEntry
  | 1 => { transcript := some "I felt happy today", images := [], emotionsAll := none }
  | 2 => { transcript := some "quiet happy walk",
           images := [⟨"a.jpg", none, ["calm"]⟩], emotionsAll := none }
  | 3 => { transcript := some "sad walk",
           images := [⟨"b.jpg", none, ["happy"]⟩], emotionsAll := none }
  | _ => { transcript := none, images := [], emotionsAll := none }

/-- The cached (un-hydrated) list for the search example. -/
def exEntries : List CacheEntry :=
  [⟨1, none, none, none⟩, ⟨2, none, none, none⟩, ⟨3, none, none, none⟩]

/-- A world in which a second session (identifier 2) is live and
recording, while an upload of the first session is still in flight. -/
def staleWorld : World :=
  { app := { liveSessionId := some 2, recordedChunks := [], pendingUploads := [],
             chunkCounter := 0 }
    recorderRecording := true
    btnLabel := "■ Stop"
    statusLine := "x"
    transcriptBox := "live"
    lastTranscribe := none }

/-- A recording world about to stop: session 1, one captured fragment,
one upload already counted. -/
def failWorld : World :=
  { app := { liveSessionId := some 1, recordedChunks := [[7]], pendingUploads := [],
             chunkCounter := 1 }
    recorderRecording := true
    btnLabel := "■ Stop"
    statusLine := "s"
    transcriptBox := ""
    lastTranscribe := none }

/-! ## General lemmas -/

/-- `streakLoop` never decreases the streak accumulator. -/
theorem streakLoop_ge (l : List Int) (fuel : Nat) :
    ∀ (d : Int) (misses streak : Nat), streak ≤ streakLoop l fuel d misses streak := by
  induction fuel with
  | zero => intro d m s; exact Nat.le_refl s
  | succ n ih =>
    intro d m s
    unfold streakLoop
    by_cases hp : l.contains d = true
    · simp only [hp, if_true]
      exact Nat.le_trans (Nat.le_succ s) (ih (d - 1) 0 (s + 1))
    · simp only [hp, if_false]
      by_cases hm : m + 1 ≥ 2
      · simp [hm]
      · simp only [hm, if_false]
        exact ih (d - 1) (m + 1) s

/-- For reachable miss counters (at most one consecutive miss so far) the
code loop and the spec-worded scan agree. -/
theorem streakLoop_eq_specScan (l : List Int) (fuel : Nat) :
    ∀ (d : Int) (misses streak : Nat), misses ≤ 1 →
      streakLoop l fuel d misses streak
        = specStreakScan (fun x => l.contains x) fuel d misses streak := by
  induction fuel with
  | zero => intro d m s _; rfl
  | succ n ih =>
    intro d m s hm
    unfold streakLoop specStreakScan
    by_cases hp : l.contains d = true
    · simp only [hp, if_true]
      exact ih (d - 1) 0 (s + 1) (Nat.zero_le 1)
    · simp only [hp, if_false]
      match m, hm with
      | 0, _ =>
        simp only [Nat.zero_add]
        have h1 : ¬ (1 ≥ 2) := by omega
        have h2 : ¬ (1 = 2) := by omega
        simp only [h1, h2, if_false]
        exact ih (d - 1) 1 s (Nat.le_refl 1)
      | 1, _ =>
        have h1 : (1 + 1 ≥ 2) := by omega
        have h2 : (1 + 1 = 2) := by omega
        simp [h1, h2]

/-- The scan consults the day set only through membership. -/
theorem streakLoop_congr (l1 l2 : List Int)
    (h : ∀ d : Int, l1.contains d = l2.contains d) (fuel : Nat) :
    ∀ (d : Int) (misses streak : Nat),
      streakLoop l1 fuel d misses streak = streakLoop l2 fuel d misses streak := by
  induction fuel with
  | zero => intro d m s; rfl
  | succ n ih =>
    intro d m s
    unfold streakLoop
    rw [h d]
    by_cases hp : l2.contains d = true
    · simp only [hp, if_true]; exact ih (d - 1) 0 (s + 1)
    · simp only [hp, if_false]
      by_cases hm : m + 1 ≥ 2
      · simp [hm]
      · simp only [hm, if_false]; exact ih (d - 1) (m + 1) s

/-- `contains` on integer lists is decided membership. -/
theorem contains_eq_decide_mem (l : List Int) (d : Int) :
    l.contains d = decide (d ∈ l) := by
  by_cases hd : d ∈ l
  · simp [List.elem_iff.mpr hd, hd]
  · have h1 : l.contains d = false := by
      cases h : l.contains d
      · rfl
      · exact absurd (List.elem_iff.mp h) hd
    simp [h1, hd]

/-- The cap keeps the retained-handle count at `min length 8`. -/
theorem capPending_length (l : List Submission) :
    (capPending l).length = min l.length 8 := by
  unfold capPending
  by_cases h : l.length > 8
  · simp only [h, if_true, List.length_drop]; omega
  · simp only [h, if_false]; omega

/-- The cap keeps a suffix of the handle list: only the oldest handles
are dropped. -/
theorem capPending_suffix (l : List Submission) : (capPending l).IsSuffix l := by
  unfold capPending
  by_cases h : l.length > 8
  · simp only [h, if_true]; exact List.drop_suffix _ _
  · simp only [h, if_false]; exact List.suffix_refl l

/-- A suffix stays a suffix after appending on the right. -/
theorem isSuffix_append_right {α : Type} {a b : List α} (c : List α)
    (h : a.IsSuffix b) : (a ++ c).IsSuffix (b ++ c) := by
  obtain ⟨t, ht⟩ := h
  exact ⟨t, by rw [← ht, List.append_assoc]⟩

/-- The handle pushed last always survives the cap. -/
theorem mem_capPending_append (l : List Submission) (x : Submission) :
    x ∈ capPending (l ++ [x]) := by
  unfold capPending
  by_cases h : (l ++ [x]).length > 8
  · simp only [h, if_true]
    have hle : (l ++ [x]).length - 8 ≤ l.length := by
      simp only [List.length_append, List.length_cons, List.length_nil] at h ⊢
      omega
    rw [List.drop_append_of_le_length hle]
    exact List.mem_append_right _ (List.mem_cons_self _ _)
  · simp only [h, if_false]
    exact List.mem_append_right _ (List.mem_cons_self _ _)

/-- Empty fragments contribute nothing to the cumulative blob. -/
theorem flatten_filter_nonempty (l : List Fragment) :
    (l.filter (fun f => !f.isEmpty)).flatten = l.flatten := by
  induction l with
  | nil => rfl
  | cons f rest ih =>
    by_cases hf : f.isEmpty = true
    · have hfe : f = [] := List.isEmpty_iff.mp hf
      simp [List.filter_cons, hf, hfe, ih]
    · simp only [List.filter_cons, hf]
      simp [List.flatten_cons, ih]

/-- Closed form of a recording phase: session identifier is untouched,
the chunk sequence accumulates exactly the non-empty fragments in
capture order, the counter advances once per non-empty fragment, and
the k-th submission issued carries index `chunkCounter₀ + k` and the
cumulative payload up to and including its fragment. -/
theorem runFrags_spec (frags : List Fragment) (s : AppState) :
    (runFrags s frags).1.liveSessionId = s.liveSessionId
    ∧ (runFrags s frags).1.recordedChunks
        = s.recordedChunks ++ frags.filter (fun f => !f.isEmpty)
    ∧ (runFrags s frags).1.chunkCounter
        = s.chunkCounter + (frags.filter (fun f => !f.isEmpty)).length
    ∧ (runFrags s frags).2
        = (List.range (frags.filter (fun f => !f.isEmpty)).length).map (fun k =>
            ⟨s.liveSessionId, s.chunkCounter + k,
              s.recordedChunks.flatten
                ++ ((frags.filter (fun f => !f.isEmpty)).take (k + 1)).flatten⟩) := by
  induction frags generalizing s with
  | nil => simp [runFrags]
  | cons f rest ih =>
    by_cases hf : f.isEmpty = true
    · have hstep : ondataavailable s f = (s, none) := by
        unfold ondataavailable; simp [hf]
      have hfil : (f :: rest).filter (fun f => !f.isEmpty)
          = rest.filter (fun f => !f.isEmpty) := by
        simp [List.filter_cons, hf]
      simp only [runFrags, hstep, hfil, Option.toList_none, List.nil_append]
      exact ih s
    · have hfe : f ≠ [] := fun hfe => hf (by simp [hfe])
      have hpay : (s.recordedChunks ++ [f]).flatten = s.recordedChunks.flatten ++ f := by
        rw [List.flatten_append, List.flatten_cons, List.flatten_nil, List.append_nil]
      have hblob : (s.recordedChunks.flatten ++ f).isEmpty = false := by
        rw [List.isEmpty_eq_false]
        exact List.append_ne_nil_of_right_ne_nil _ hfe
      set sub : Submission :=
        ⟨s.liveSessionId, s.chunkCounter, s.recordedChunks.flatten ++ f⟩ with hsub
      have hstep : ondataavailable s f
          = ({ liveSessionId := s.liveSessionId,
               recordedChunks := s.recordedChunks ++ [f],
               pendingUploads := capPending (s.pendingUploads ++ [sub]),
               chunkCounter := s.chunkCounter + 1 }, some sub) := by
        unfold ondataavailable uploadCumulativeBlob
        simp [hf, hpay, hblob, hsub]
      have hfil : (f :: rest).filter (fun f => !f.isEmpty)
          = f :: rest.filter (fun f => !f.isEmpty) := by
        simp [List.filter_cons, hf]
      obtain ⟨ih1, ih2, ih3, ih4⟩ := ih
        { liveSessionId := s.liveSessionId
          recordedChunks := s.recordedChunks ++ [f]
          pendingUploads := capPending (s.pendingUploads ++ [sub])
          chunkCounter := s.chunkCounter + 1 }
      refine ⟨?_, ?_, ?_, ?_⟩
      · simp only [runFrags, hstep]
        exact ih1
      · simp only [runFrags, hstep, hfil]
        rw [ih2]
        simp [List.append_assoc]
      · simp only [runFrags, hstep, hfil]
        rw [ih3]
        simp [List.length_cons]
        omega
      · simp only [runFrags, hstep, hfil, Option.toList_some]
        rw [ih4]
        rw [List.length_cons, List.range_succ_eq_map, List.map_cons, List.map_map]
        refine congrArg₂ List.cons ?_ ?_
        · simp [hsub, List.take_succ_cons]
        · refine List.map_congr_left (fun k hk => ?_)
          simp only [Function.comp_apply, Nat.succ_eq_add_one, List.take_succ_cons,
            List.flatten_cons, hpay]
          refine congrArg₂ (fun i p => Submission.mk s.liveSessionId i p) ?_ ?_
          · omega
          · rw [List.append_assoc]

/-- Through any recording phase the retained-handle list stays at no
more than 8 entries and is a suffix of all handles ever created. -/
theorem runFrags_pending (frags : List Fragment) (s : AppState)
    (h8 : s.pendingUploads.length ≤ 8) :
    ((runFrags s frags).1.pendingUploads).length ≤ 8
    ∧ ((runFrags s frags).1.pendingUploads).IsSuffix
        (s.pendingUploads ++ (runFrags s frags).2) := by
  induction frags generalizing s with
  | nil =>
    refine ⟨h8, ?_⟩
    simp only [runFrags, List.append_nil]
    exact List.suffix_refl _
  | cons f rest ih =>
    by_cases hf : f.isEmpty = true
    · have hstep : ondataavailable s f = (s, none) := by
        unfold ondataavailable; simp [hf]
      simp only [runFrags, hstep, Option.toList_none, List.nil_append]
      exact ih s h8
    · have hfe : f ≠ [] := fun hfe => hf (by simp [hfe])
      have hpay : (s.recordedChunks ++ [f]).flatten = s.recordedChunks.flatten ++ f := by
        rw [List.flatten_append, List.flatten_cons, List.flatten_nil, List.append_nil]
      have hblob : (s.recordedChunks.flatten ++ f).isEmpty = false := by
        rw [List.isEmpty_eq_false]
        exact List.append_ne_nil_of_right_ne_nil _ hfe
      set sub : Submission :=
        ⟨s.liveSessionId, s.chunkCounter, s.recordedChunks.flatten ++ f⟩ with hsub
      set s1 : AppState :=
        { liveSessionId := s.liveSessionId
          recordedChunks := s.recordedChunks ++ [f]
          pendingUploads := capPending (s.pendingUploads ++ [sub])
          chunkCounter := s.chunkCounter + 1 } with hs1
      have hstep : ondataavailable s f = (s1, some sub) := by
        unfold ondataavailable uploadCumulativeBlob
        simp [hf, hpay, hblob, hsub, hs1]
      have hcap8 : s1.pendingUploads.length ≤ 8 := by
        rw [hs1]
        show (capPending (s.pendingUploads ++ [sub])).length ≤ 8
        rw [capPending_length]; omega
      obtain ⟨ihl, ihs⟩ := ih s1 hcap8
      refine ⟨?_, ?_⟩
      · simp only [runFrags, hstep]
        exact ihl
      · simp only [runFrags, hstep, Option.toList_some]
        refine List.IsSuffix.trans ihs ?_
        have hproj : s1.pendingUploads = capPending (s.pendingUploads ++ [sub]) := by
          rw [hs1]
        rw [hproj]
        have h1 : (capPending (s.pendingUploads ++ [sub]) ++ (runFrags s1 rest).2).IsSuffix
            ((s.pendingUploads ++ [sub]) ++ (runFrags s1 rest).2) :=
          isSuffix_append_right _ (capPending_suffix _)
        rw [List.append_assoc] at h1
        simpa using h1

/-- A non-empty cumulative blob is always submitted, tagged with the
live session identifier and the post-incremented counter. -/
theorem uploadCumulativeBlob_submit (s : AppState)
    (h : s.recordedChunks.flatten ≠ []) :
    uploadCumulativeBlob s
      = ({ s with
            chunkCounter := s.chunkCounter + 1
            pendingUploads := capPending (s.pendingUploads
              ++ [⟨s.liveSessionId, s.chunkCounter, s.recordedChunks.flatten⟩]) },
         some ⟨s.liveSessionId, s.chunkCounter, s.recordedChunks.flatten⟩) := by
  have hb : (s.recordedChunks.flatten).isEmpty = false := List.isEmpty_eq_false.mpr h
  unfold uploadCumulativeBlob
  simp [hb]

/-- A cumulative upload never changes the live session identifier. -/
theorem uploadCumulativeBlob_sid (s : AppState) :
    ((uploadCumulativeBlob s).1).liveSessionId = s.liveSessionId := by
  unfold uploadCumulativeBlob
  dsimp only
  split <;> rfl

/-- A cumulative upload keeps the retained-handle count at 8 or below. -/
theorem uploadCumulativeBlob_pending_le (s : AppState)
    (h8 : s.pendingUploads.length ≤ 8) :
    ((uploadCumulativeBlob s).1.pendingUploads).length ≤ 8 := by
  unfold uploadCumulativeBlob
  by_cases hb : (s.recordedChunks.flatten).isEmpty = true
  · simp [hb, h8]
  · simp only [hb, Bool.false_eq_true, if_false]
    show (capPending _).length ≤ 8
    rw [capPending_length]
    omega

/-- A captured fragment keeps the retained-handle count at 8 or below. -/
theorem ondataavailable_pending_le (s : AppState) (d : Fragment)
    (h8 : s.pendingUploads.length ≤ 8) :
    ((ondataavailable s d).1.pendingUploads).length ≤ 8 := by
  unfold ondataavailable
  by_cases hd : d.isEmpty = true
  · simp [hd, h8]
  · simp only [hd, Bool.false_eq_true, if_false]
    exact uploadCumulativeBlob_pending_le _ h8

/-- The forced flush appends exactly the flushed bytes to the cumulative
audio and never touches the session identifier or the chunk
sequence's earlier fragments. -/
theorem stopFlushedState_flatten (s : AppState) (d : Fragment) :
    (stopFlushedState s d).recordedChunks.flatten = s.recordedChunks.flatten ++ d
    ∧ (stopFlushedState s d).liveSessionId = s.liveSessionId := by
  unfold stopFlushedState ondataavailable
  by_cases hd : d.isEmpty = true
  · have hde : d = [] := List.isEmpty_iff.mp hd
    simp [hde]
  · have hpay : (s.recordedChunks ++ [d]).flatten = s.recordedChunks.flatten ++ d := by
      rw [List.flatten_append, List.flatten_cons, List.flatten_nil, List.append_nil]
    simp only [hd, Bool.false_eq_true, if_false]
    unfold uploadCumulativeBlob
    dsimp only
    split <;> simp [hpay]

/-- The stop handler's returned trace does not depend on the finalize
outcome: both the success and the failure path issued the same
requests. -/
theorem stopHandler_trace_eq (w : World) (flushData : Fragment) (fOk : Bool)
    (ft : String) (wd : Nat) (afn : Option String) (em : String) :
    (stopHandler w flushData fOk ft wd afn em).2 = stopTrace w.app flushData := by
  cases fOk <;> rfl

/-- Shape of the stop-handshake trace whenever the session holds any
audio at all: some prefix ending in the flush wait, then the device
release wait, then exactly one final cumulative upload, then the
settle-wait on precisely the retained handles (among which the final
upload's own handle appears), then the finalize call tagged with the
live session identifier. -/
theorem stopTrace_spec (s0 : AppState) (flushData : Fragment)
    (hblob : (stopFlushedState s0 flushData).recordedChunks.flatten ≠ []) :
    ∃ pre : List StopAction,
      stopTrace s0 flushData
        = pre ++ [StopAction.deviceReleaseWait,
            StopAction.submitUpload
              ⟨(stopFlushedState s0 flushData).liveSessionId,
               (stopFlushedState s0 flushData).chunkCounter,
               (stopFlushedState s0 flushData).recordedChunks.flatten⟩,
            StopAction.settleWait (stopUploadedState s0 flushData).pendingUploads,
            StopAction.finalizeCall s0.liveSessionId]
      ∧ pre.getLast? = some StopAction.flushWait
      ∧ pre.countP isFinalizeCall = 0
      ∧ (⟨(stopFlushedState s0 flushData).liveSessionId,
          (stopFlushedState s0 flushData).chunkCounter,
          (stopFlushedState s0 flushData).recordedChunks.flatten⟩ : Submission)
          ∈ (stopUploadedState s0 flushData).pendingUploads := by
  have hup := uploadCumulativeBlob_submit (stopFlushedState s0 flushData) hblob
  have hmem : (⟨(stopFlushedState s0 flushData).liveSessionId,
      (stopFlushedState s0 flushData).chunkCounter,
      (stopFlushedState s0 flushData).recordedChunks.flatten⟩ : Submission)
      ∈ (stopUploadedState s0 flushData).pendingUploads := by
    unfold stopUploadedState
    rw [hup]
    exact mem_capPending_append _ _
  have hP : ((stopUploadedState s0 flushData).pendingUploads).isEmpty = false := by
    rw [List.isEmpty_eq_false]
    exact List.ne_nil_of_mem hmem
  refine ⟨(ondataavailable s0 flushData).2.toList.map StopAction.submitUpload
      ++ [StopAction.flushWait], ?_, ?_, ?_, hmem⟩
  · unfold stopTrace
    have h2 : (uploadCumulativeBlob (stopFlushedState s0 flushData)).2
        = some ⟨(stopFlushedState s0 flushData).liveSessionId,
            (stopFlushedState s0 flushData).chunkCounter,
            (stopFlushedState s0 flushData).recordedChunks.flatten⟩ := by
      rw [hup]
    have h1 : (uploadCumulativeBlob (stopFlushedState s0 flushData)).1
        = stopUploadedState s0 flushData := rfl
    show (ondataavailable s0 flushData).2.toList.map StopAction.submitUpload
        ++ [StopAction.flushWait, StopAction.deviceReleaseWait]
        ++ (uploadCumulativeBlob (stopFlushedState s0 flushData)).2.toList.map
            StopAction.submitUpload
        ++ (if ((uploadCumulativeBlob (stopFlushedState s0 flushData)).1.pendingUploads).isEmpty
            then []
            else [StopAction.settleWait
              (uploadCumulativeBlob (stopFlushedState s0 flushData)).1.pendingUploads])
        ++ [StopAction.finalizeCall s0.liveSessionId] = _
    rw [h2, h1, hP]
    simp [List.append_assoc]
  · rw [List.getLast?_concat]
  · rw [List.countP_append]
    have hpre0 : ((ondataavailable s0 flushData).2.toList.map
        StopAction.submitUpload).countP isFinalizeCall = 0 := by
      cases (ondataavailable s0 flushData).2 <;> rfl
    rw [hpre0]
    rfl

/-- Characterisation of the prefix test: `hay` starts with `needle` iff
`hay` decomposes as `needle ++ r`. -/
theorem startsWithList_iff (needle hay : List Char) :
    startsWithList needle hay = true ↔ ∃ r, hay = needle ++ r := by
  induction needle generalizing hay with
  | nil => simp [startsWithList]
  | cons a as ih =>
    cases hay with
    | nil => simp [startsWithList]
    | cons b bs =>
      show (a == b && startsWithList as bs) = true ↔ _
      simp only [Bool.and_eq_true, beq_iff_eq, ih, List.cons_append, List.cons.injEq]
      constructor
      · rintro ⟨hab, r, hr⟩
        exact ⟨r, hab.symm, hr⟩
      · rintro ⟨r, hba, hr⟩
        exact ⟨hba.symm, r, hr⟩

/-- Characterisation of the substring test: `needle` occurs in `hay` iff
`hay` decomposes as `l ++ needle ++ r`. -/
theorem occursIn_iff (needle hay : List Char) :
    occursIn needle hay = true ↔ ∃ l r, hay = l ++ needle ++ r := by
  induction hay with
  | nil =>
    simp only [occursIn, List.isEmpty_iff]
    constructor
    · intro h
      exact ⟨[], [], by simp [h]⟩
    · rintro ⟨l, r, hr⟩
      rcases List.append_eq_nil.mp (List.append_eq_nil.mp hr.symm).1 with ⟨-, h2⟩
      exact h2
  | cons c cs ih =>
    simp only [occursIn, Bool.or_eq_true, startsWithList_iff, ih]
    constructor
    · rintro (⟨r, hr⟩ | ⟨l, r, hr⟩)
      · exact ⟨[], r, by simp [hr]⟩
      · exact ⟨c :: l, r, by simp [hr]⟩
    · rintro ⟨l, r, hr⟩
      cases l with
      | nil =>
        left
        exact ⟨r, by simpa using hr⟩
      | cons x xs =>
        right
        rw [List.cons_append, List.cons_append, List.cons.injEq] at hr
        exact ⟨xs, r, by rw [hr.2, List.append_assoc]⟩

/-! ## Claim theorems -/

/-- C6: for every entry set, the day-streak is computed by scanning
backward from today over at most 365 days, incrementing the streak and
resetting the consecutive-miss counter on each day with at least one
entry, incrementing the consecutive-miss counter on each empty day and
stopping only when two consecutive missed days occur (the code scan
equals the spec-worded scan `specStreakScan` over the same day set);
in particular, for present days today, today−1 and today−3 (with today
being day 1000) the resulting streak is 3. -/
theorem c6_streak_backward_scan (items : List EntryMeta) (now : LDate) :
    computeStreakWithGrace items now
      = specStreakScan (fun x => (streakDaySet items now).contains x) 365 now.day 0 0
    ∧ computeStreakWithGrace
        [⟨CreatedAt.valid 1000 0, []⟩, ⟨CreatedAt.valid 999 0, []⟩,
         ⟨CreatedAt.valid 997 0, []⟩] ⟨1000, 0⟩ = 3 :=
  ⟨streakLoop_eq_specScan (streakDaySet items now) 365 now.day 0 0 (Nat.zero_le 1),
   by decide⟩

/-- C8: hydration of a cached entry is idempotent and fetches at most
once: after one `ensureEntryCached` the entry carries memoised
transcript and image tags, a second call performs no fetch and returns
the entry unchanged, and a call that performed no fetch left the entry
untouched. -/
theorem c8_hydration_memoised (store : Nat → FullEntry) (it : CacheEntry) :
    ((ensureEntryCached store it).1.tscript.isSome = true
      ∧ (ensureEntryCached store it).1.imageTags.isSome = true)
    ∧ ensureEntryCached store (ensureEntryCached store it).1
        = ((ensureEntryCached store it).1, false)
    ∧ ((ensureEntryCached store it).2 = false → (ensureEntryCached store it).1 = it)
    ∧ ((ensureEntryCached store it).2 = true
        → (ensureEntryCached store it).1.tscript
            = some ((store it.id).transcript.getD "")
          ∧ (ensureEntryCached store it).1.imageTags
            = some (deriveImageTags (store it.id).images)) := by
  unfold ensureEntryCached
  by_cases h : (it.tscript.isSome && it.imageTags.isSome) = true
  · simp only [h, if_true]
    simp only [Bool.and_eq_true] at h
    simp [h.1, h.2]
  · simp [h]

/-- Witness for C8 at a concrete un-hydrated entry: the first call
fetches, the second call does not and returns the same entry. -/
theorem c8_hydration_memoised_witness :
    (ensureEntryCached (fun _ => ⟨some "hello", [], none⟩) ⟨7, none, none, none⟩).2 = true
    ∧ ensureEntryCached (fun _ => ⟨some "hello", [], none⟩)
        (ensureEntryCached (fun _ => ⟨some "hello", [], none⟩) ⟨7, none, none, none⟩).1
      = ((ensureEntryCached (fun _ => ⟨some "hello", [], none⟩) ⟨7, none, none, none⟩).1,
         false) :=
  ⟨by decide,
   (c8_hydration_memoised (fun _ => ⟨some "hello", [], none⟩) ⟨7, none, none, none⟩).2.1⟩

/-- C9: the streak is a function only of the set of distinct local dates
of the entries: day sets with the same membership give the same streak,
and adding an entry whose local day is already present never changes
the computed streak. -/
theorem c9_streak_distinct_days (items : List EntryMeta) (now : LDate) (e : EntryMeta)
    (h : entryDayKey e now ∈ streakDaySet items now) :
    computeStreakWithGrace (e :: items) now = computeStreakWithGrace items now
    ∧ ∀ items2 : List EntryMeta,
        (∀ d : Int, d ∈ streakDaySet items now ↔ d ∈ streakDaySet items2 now) →
        computeStreakWithGrace items now = computeStreakWithGrace items2 now := by
  have hset : ∀ (l1 l2 : List Int), (∀ d : Int, d ∈ l1 ↔ d ∈ l2) →
      ∀ (fuel : Nat) (d : Int) (m s : Nat),
        streakLoop l1 fuel d m s = streakLoop l2 fuel d m s := by
    intro l1 l2 hmem fuel d m s
    refine streakLoop_congr l1 l2 (fun x => ?_) fuel d m s
    rw [contains_eq_decide_mem, contains_eq_decide_mem]
    by_cases hx : x ∈ l1
    · simp [hx, (hmem x).mp hx]
    · have hx2 : x ∉ l2 := fun hc => hx ((hmem x).mpr hc)
      simp [hx, hx2]
  constructor
  · have hcons : streakDaySet (e :: items) now
        = entryDayKey e now :: streakDaySet items now := rfl
    unfold computeStreakWithGrace
    rw [hcons]
    refine hset _ _ (fun d => ?_) 365 now.day 0 0
    constructor
    · intro hd
      rcases List.mem_cons.mp hd with hd1 | hd2
      · rw [hd1]; exact h
      · exact hd2
    · intro hd; exact List.mem_cons_of_mem _ hd
  · intro items2 hmem
    unfold computeStreakWithGrace
    exact hset _ _ hmem 365 now.day 0 0

/-- Witness for C9: adding a second entry on day 1000 (already present)
leaves the streak unchanged. -/
theorem c9_streak_distinct_days_witness :
    computeStreakWithGrace
        [⟨CreatedAt.valid 1000 5, []⟩, ⟨CreatedAt.valid 1000 0, []⟩] ⟨1000, 0⟩
      = computeStreakWithGrace [⟨CreatedAt.valid 1000 0, []⟩] ⟨1000, 0⟩ :=
  (c9_streak_distinct_days [⟨CreatedAt.valid 1000 0, []⟩] ⟨1000, 0⟩
    ⟨CreatedAt.valid 1000 5, []⟩ (by decide)).1

/-- C10: an entry whose `created_at` is present but unparseable is dated
at the current moment: it is counted inside the 7-day window of the
weekly top-emotion aggregation (its top label's count goes up by one)
and it marks today as a present day for the streak (so the streak is at
least 1). -/
theorem c10_invalid_created_at (items : List EntryMeta) (now : LDate)
    (e : EntryMeta) (raw label : String) (score : Nat) (rest : List Emotion)
    (hc : e.created_at = CreatedAt.invalid raw)
    (ht : e.emotions_top3 = ⟨label, score⟩ :: rest)
    (hlabel : label ≠ "") :
    weeklyTop1Count (e :: items) now label = weeklyTop1Count items now label + 1
    ∧ entryDayKey e now = now.day
    ∧ now.day ∈ streakDaySet (e :: items) now
    ∧ 1 ≤ computeStreakWithGrace (e :: items) now := by
  have hparse : parseLocalDateFromISOish e.created_at now = some now := by
    rw [hc]; rfl
  have hkey : entryDayKey e now = now.day := by
    unfold entryDayKey
    rw [hparse]; rfl
  have hlt : dateLt now (daysAgoDate 6 now) = false := by
    unfold dateLt daysAgoDate
    have h1 : ¬ (now.day < now.day - (6 : Nat)) := by omega
    have h2 : ¬ ((now.tod : Int) < (0 : Nat)) := by omega
    simp only [Bool.or_eq_false_iff, Bool.and_eq_false_iff]
    constructor
    · exact decide_eq_false h1
    · right; simp
  refine ⟨?_, hkey, ?_, ?_⟩
  · unfold weeklyTop1Count
    rw [List.filter_cons]
    have hpred : (match parseLocalDateFromISOish e.created_at now with
        | none => false
        | some d =>
          if dateLt d (daysAgoDate 6 now) then false
          else
            match e.emotions_top3.head? with
            | some em => label != "" && em.label == label
            | none => false) = true := by
      rw [hparse, ht]
      simp [hlt, hlabel]
    simp only [hpred, if_true, List.length_cons]
  · have hcons : streakDaySet (e :: items) now
        = entryDayKey e now :: streakDaySet items now := rfl
    rw [hcons, hkey]
    exact List.mem_cons_self _ _
  · have hcons : streakDaySet (e :: items) now
        = now.day :: streakDaySet items now := by
      have : streakDaySet (e :: items) now
          = entryDayKey e now :: streakDaySet items now := rfl
      rw [this, hkey]
    unfold computeStreakWithGrace
    rw [hcons]
    show 1 ≤ streakLoop (now.day :: streakDaySet items now) 365 now.day 0 0
    have hcont : (now.day :: streakDaySet items now).contains now.day = true := by
      rw [contains_eq_decide_mem]
      simp
    unfold streakLoop
    simp only [hcont, if_true]
    exact streakLoop_ge _ 364 (now.day - 1) 0 1

/-- C3: in a session capturing N non-empty fragments, the k-th upload
(0 ≤ k < N) carries chunk index k and the concatenation, in capture
order, of fragments 0 through k; the submitted indices are exactly
0, 1, …, N−1 — strictly increasing and contiguous from 0. -/
theorem c3_cumulative_payloads (sid : Nat) (frags : List Fragment)
    (hne : ∀ f ∈ frags, f ≠ []) :
    (runFrags (startSession sid) frags).2
      = (List.range frags.length).map (fun k =>
          ⟨some sid, k, (frags.take (k + 1)).flatten⟩)
    ∧ ((runFrags (startSession sid) frags).2).map (fun sub => sub.index)
      = List.range frags.length
    ∧ ((runFrags (startSession sid) frags).2).length = frags.length := by
  have hfil : frags.filter (fun f => !f.isEmpty) = frags :=
    List.filter_eq_self.mpr (fun f hf => by
      simp only [Bool.not_eq_true']
      rw [List.isEmpty_eq_false]
      exact hne f hf)
  obtain ⟨-, -, -, h4⟩ := runFrags_spec frags (startSession sid)
  rw [hfil] at h4
  have h4s : (runFrags (startSession sid) frags).2
      = (List.range frags.length).map (fun k =>
          ⟨some sid, k, (frags.take (k + 1)).flatten⟩) := by
    rw [h4]
    refine List.map_congr_left (fun k _ => ?_)
    simp [startSession]
  refine ⟨h4s, ?_, ?_⟩
  · rw [h4s, List.map_map]
    have : ((fun sub : Submission => sub.index) ∘ (fun k =>
        (⟨some sid, k, (frags.take (k + 1)).flatten⟩ : Submission))) = fun k => k := by
      funext k; rfl
    rw [this, List.map_id']
  · rw [h4s, List.length_map, List.length_range]

/-- Witness for C3 with two concrete non-empty fragments. -/
theorem c3_cumulative_payloads_witness :
    (runFrags (startSession 1) [[5], [6, 7]]).2
      = [⟨some 1, 0, [5]⟩, ⟨some 1, 1, [5, 6, 7]⟩] := by
  have h := (c3_cumulative_payloads 1 [[5], [6, 7]]
    (by intro f hf; simp at hf; rcases hf with h1 | h1 <;> simp [h1])).1
  rw [h]
  decide

/-- C7: however many fragments are captured, after each submission's
bookkeeping the retained in-flight set holds at most 8 handles; the
retained set is a suffix of the full submission history (only the
oldest handles are dropped, and only from tracking: every submission
ever issued stays in the history — one per non-empty fragment), and
the cap also holds after the stop path's final upload. -/
theorem c7_inflight_cap (sid : Nat) (frags : List Fragment) (flushData : Fragment) :
    ((runFrags (startSession sid) frags).1.pendingUploads).length ≤ 8
    ∧ ((runFrags (startSession sid) frags).1.pendingUploads).IsSuffix
        ((runFrags (startSession sid) frags).2)
    ∧ ((runFrags (startSession sid) frags).2).length
        = (frags.filter (fun f => !f.isEmpty)).length
    ∧ ((stopUploadedState (runFrags (startSession sid) frags).1
          flushData).pendingUploads).length ≤ 8 := by
  have h0 : (startSession sid).pendingUploads.length ≤ 8 := by
    simp [startSession]
  obtain ⟨hlen, hsuf⟩ := runFrags_pending frags (startSession sid) h0
  obtain ⟨-, -, -, h4⟩ := runFrags_spec frags (startSession sid)
  refine ⟨hlen, ?_, ?_, ?_⟩
  · have : (startSession sid).pendingUploads ++ (runFrags (startSession sid) frags).2
        = (runFrags (startSession sid) frags).2 := by
      simp [startSession]
    rw [this] at hsuf
    exact hsuf
  · rw [h4, List.length_map, List.length_range]
  · unfold stopUploadedState stopFlushedState
    exact uploadCumulativeBlob_pending_le _ (ondataavailable_pending_le _ _ hlen)

/-- C1: for any recording session (any sequence of automatic slices
before the stop click, any flushed tail fragment, any finalize
outcome), provided the session captured at least one byte of audio,
the stop action performs in order: a prefix ending in the forced-flush
wait, then the device-release wait, then one final cumulative upload
(tagged with the live session identifier and carrying the whole
captured audio), then a settle-wait on exactly the still-tracked
in-flight uploads — among which the final upload itself appears, so its
outcome is awaited — and then the finalize call; the whole trace
contains exactly one finalize call and it carries only the session
identifier. -/
theorem c1_stop_handshake (sid : Nat) (frags : List Fragment) (flushData : Fragment)
    (fOk : Bool) (ft : String) (wd : Nat) (afn : Option String) (em : String)
    (hne : frags.flatten ++ flushData ≠ []) :
    ∃ (pre : List StopAction) (fsub : Submission),
      (stopHandler (worldAfterRecord sid frags) flushData fOk ft wd afn em).2
        = pre ++ [StopAction.deviceReleaseWait, StopAction.submitUpload fsub,
            StopAction.settleWait
              (stopUploadedState (worldAfterRecord sid frags).app
                flushData).pendingUploads,
            StopAction.finalizeCall (some sid)]
      ∧ pre.getLast? = some StopAction.flushWait
      ∧ fsub.sessionId = some sid
      ∧ fsub.payload = frags.flatten ++ flushData
      ∧ fsub ∈ (stopUploadedState (worldAfterRecord sid frags).app
          flushData).pendingUploads
      ∧ ((stopHandler (worldAfterRecord sid frags) flushData fOk ft wd afn
          em).2).countP isFinalizeCall = 1 := by
  obtain ⟨hsid, hchunks, -, -⟩ := runFrags_spec frags (startSession sid)
  have hsid2 : (worldAfterRecord sid frags).app.liveSessionId = some sid := hsid
  have hflat : (worldAfterRecord sid frags).app.recordedChunks.flatten
      = frags.flatten := by
    show ((runFrags (startSession sid) frags).1.recordedChunks).flatten = frags.flatten
    rw [hchunks]
    simp [startSession, flatten_filter_nonempty]
  obtain ⟨hflush, hflushsid⟩ :=
    stopFlushedState_flatten (worldAfterRecord sid frags).app flushData
  have hblob : (stopFlushedState (worldAfterRecord sid frags).app
      flushData).recordedChunks.flatten ≠ [] := by
    rw [hflush, hflat]
    exact hne
  obtain ⟨pre, htr, hlast, hcnt0, hmem⟩ :=
    stopTrace_spec (worldAfterRecord sid frags).app flushData hblob
  refine ⟨pre,
    ⟨(stopFlushedState (worldAfterRecord sid frags).app flushData).liveSessionId,
     (stopFlushedState (worldAfterRecord sid frags).app flushData).chunkCounter,
     (stopFlushedState (worldAfterRecord sid frags).app
       flushData).recordedChunks.flatten⟩, ?_, hlast, ?_, ?_, hmem, ?_⟩
  · rw [stopHandler_trace_eq, htr, hsid2]
  · simp only [hflushsid, hsid2]
  · simp only [hflush, hflat]
  · rw [stopHandler_trace_eq, htr, List.countP_append, hcnt0]
    rfl

/-- Witness for C1: one captured fragment, a non-empty flush fragment,
finalize succeeding. -/
theorem c1_stop_handshake_witness :
    ∃ (pre : List StopAction) (fsub : Submission),
      (stopHandler (worldAfterRecord 1 [[5]]) [6] true "t" 2 (some "a.webm") "").2
        = pre ++ [StopAction.deviceReleaseWait, StopAction.submitUpload fsub,
            StopAction.settleWait
              (stopUploadedState (worldAfterRecord 1 [[5]]).app [6]).pendingUploads,
            StopAction.finalizeCall (some 1)]
      ∧ pre.getLast? = some StopAction.flushWait
      ∧ fsub.sessionId = some 1
      ∧ fsub.payload = [5, 6]
      ∧ fsub ∈ (stopUploadedState (worldAfterRecord 1 [[5]]).app [6]).pendingUploads
      ∧ ((stopHandler (worldAfterRecord 1 [[5]]) [6] true "t" 2 (some "a.webm")
          "").2).countP isFinalizeCall = 1 :=
  c1_stop_handshake 1 [[5]] [6] true "t" 2 (some "a.webm") "" (by decide)

/-- Witness for C10 at a concrete entry with an unparseable date. -/
theorem c10_invalid_created_at_witness :
    weeklyTop1Count [⟨CreatedAt.invalid "not-a-date", [⟨"joy", 5⟩]⟩] ⟨0, 0⟩ "joy"
        = weeklyTop1Count [] ⟨0, 0⟩ "joy" + 1
    ∧ 1 ≤ computeStreakWithGrace [⟨CreatedAt.invalid "not-a-date", [⟨"joy", 5⟩]⟩] ⟨0, 0⟩ :=
  ⟨(c10_invalid_created_at [] ⟨0, 0⟩ ⟨CreatedAt.invalid "not-a-date", [⟨"joy", 5⟩]⟩
      "not-a-date" "joy" 5 [] rfl rfl (by decide)).1,
   (c10_invalid_created_at [] ⟨0, 0⟩ ⟨CreatedAt.invalid "not-a-date", [⟨"joy", 5⟩]⟩
      "not-a-date" "joy" 5 [] rfl rfl (by decide)).2.2.2⟩

/-- Counterexample to C5 as stated: with session 1 live, one fragment
recorded and the flush delivering one more, a failing finalize leaves
every piece of session state in place — the identifier is still
session 1 (not cleared), the chunk sequence still holds both
fragments, the index counter stands at 3 and the in-flight set is
non-empty — even though the error was surfaced.  The claim's
"nevertheless resets all session state" is false on the code: the
reset block runs only on finalize success. -/
theorem c5_reset_counterexample :
    ((stopHandler failWorld [9] false "t" 0 none "Finalize failed (500)").1).app.liveSessionId
        = some 1
    ∧ ¬ (((stopHandler failWorld [9] false "t" 0 none
          "Finalize failed (500)").1).app.liveSessionId = none)
    ∧ ((stopHandler failWorld [9] false "t" 0 none
          "Finalize failed (500)").1).app.recordedChunks = [[7], [9]]
    ∧ ((stopHandler failWorld [9] false "t" 0 none
          "Finalize failed (500)").1).app.chunkCounter = 3
    ∧ ((stopHandler failWorld [9] false "t" 0 none
          "Finalize failed (500)").1).app.pendingUploads ≠ []
    ∧ ((stopHandler failWorld [9] false "t" 0 none
          "Finalize failed (500)").1).transcriptBox
        = "❌ Mic error: Finalize failed (500)" := by
  decide

/-- C5 (amended): if the finalize call fails, the coordinator surfaces
the error (the status line is cleared and the transcript box shows the
error message) and the recorder is no longer recording, so the next
record click takes the start path — and the start path resets all
session state; the failure path itself, however, leaves the session
identifier, chunk sequence, in-flight set and index counter exactly as
they were after the final upload (they are not reset there). -/
theorem c5_finalize_failure_behaviour (w : World) (flushData : Fragment)
    (ft : String) (wd : Nat) (afn : Option String) (em : String) :
    ((stopHandler w flushData false ft wd afn em).1).app
        = stopUploadedState w.app flushData
    ∧ ((stopHandler w flushData false ft wd afn em).1).app.liveSessionId
        = w.app.liveSessionId
    ∧ ((stopHandler w flushData false ft wd afn em).1).recorderRecording = false
    ∧ ((stopHandler w flushData false ft wd afn em).1).statusLine = ""
    ∧ ((stopHandler w flushData false ft wd afn em).1).transcriptBox
        = "❌ Mic error: " ++ em
    ∧ ∀ sid : Nat, startSession sid
        = { liveSessionId := some sid, recordedChunks := [], pendingUploads := [],
            chunkCounter := 0 } := by
  refine ⟨rfl, ?_, rfl, rfl, rfl, fun _ => rfl⟩
  show (stopUploadedState w.app flushData).liveSessionId = w.app.liveSessionId
  unfold stopUploadedState
  rw [uploadCumulativeBlob_sid]
  exact (stopFlushedState_flatten w.app flushData).2

/-- Counterexample to C2 as stated: a chunk-upload response tagged with
stale session 1, arriving while session 2 is live and recording,
overwrites the transcript preview — the handler guards only on the
recorder state and non-empty text, never on the session identifier. -/
theorem c2_stale_counterexample :
    (chunkResponseHandler staleWorld (some 1) true " old stale ").transcriptBox
        = "old stale"
    ∧ (chunkResponseHandler staleWorld (some 1) true " old stale ").transcriptBox
        ≠ staleWorld.transcriptBox
    ∧ some (1 : Nat) ≠ staleWorld.app.liveSessionId := by
  decide

/-- C2 (amended): a chunk-upload response — stale or not — never mutates
the live session's chunk sequence, index counter or in-flight set, and
it leaves the whole world untouched when no recorder is actively
recording, when the response is not ok, or when the trimmed transcript
is empty; but a stale response arriving while a (new) session is
recording does overwrite the transcript preview, because the handler
never compares the response's session tag with the live identifier. -/
theorem c2_stale_response_amended (w : World) (rsid : Option Nat) (ok : Bool)
    (t : String) :
    (chunkResponseHandler w rsid ok t).app = w.app
    ∧ (w.recorderRecording = false → chunkResponseHandler w rsid ok t = w)
    ∧ (ok = false → chunkResponseHandler w rsid ok t = w)
    ∧ (jsTrim t = "" → chunkResponseHandler w rsid ok t = w) := by
  cases ok with
  | false => simp [chunkResponseHandler]
  | true =>
    refine ⟨?_, ?_, ?_, ?_⟩
    · by_cases hc : (w.recorderRecording && !(jsTrim t == "")) = true <;>
        simp [chunkResponseHandler, hc]
    · intro hrec
      simp [chunkResponseHandler, hrec]
    · intro h
      exact Bool.noConfusion h
    · intro ht
      simp [chunkResponseHandler, ht]

/-- Witness for C2 (amended): a non-ok response changes nothing. -/
theorem c2_stale_response_amended_witness :
    (chunkResponseHandler staleWorld (some 1) false "x").app = staleWorld.app
    ∧ chunkResponseHandler staleWorld (some 1) false "x" = staleWorld :=
  ⟨(c2_stale_response_amended staleWorld (some 1) false "x").1,
   (c2_stale_response_amended staleWorld (some 1) false "x").2.2.1 rfl⟩

/-- Counterexample to C4 as stated: on the claim's own three entries the
query "happy quiet" returns entry 2 only, not entries 2 and 3 — entry
3 matches "happy" through its image tag, but no field of entry 3
contains "quiet", and terms combine with AND. -/
theorem c4_search_counterexample :
    ((renderHistoryWithQuery exStore "happy quiet" exEntries).2.map
        (fun it => it.id)) = [2]
    ∧ ((renderHistoryWithQuery exStore "happy quiet" exEntries).2.map
        (fun it => it.id)) ≠ [2, 3] := by
  decide

/-- C4 (amended): an empty or all-whitespace query returns the cached
list unfiltered; a non-trivial query is lowercased and split on
whitespace into terms, every entry is hydrated first, and an entry is
shown iff every term occurs as a substring of its lowercased
transcript or of its space-joined image-tag set (OR within a term
across the two fields, AND across terms); on the example entries the
query "happy quiet" returns entry 2 only. -/
theorem c4_search_semantics (store : Nat → FullEntry) (query : String)
    (items : List CacheEntry) :
    (jsTrim query = "" → renderHistoryWithQuery store query items = (items, items))
    ∧ (jsTrim query ≠ "" →
        (renderHistoryWithQuery store query items).1
            = items.map (fun it => (ensureEntryCached store it).1)
        ∧ ∀ it : CacheEntry,
            (it ∈ (renderHistoryWithQuery store query items).2 ↔
              it ∈ (renderHistoryWithQuery store query items).1
              ∧ ∀ t ∈ queryTerms (jsTrim query),
                (∃ l r : List Char,
                  (jsToLowerCase (it.tscript.getD "")).data = l ++ t.data ++ r)
                ∨ (∃ l r : List Char,
                  (jsJoin " " (it.imageTags.getD [])).data = l ++ t.data ++ r)))
    ∧ ((renderHistoryWithQuery exStore "happy quiet" exEntries).2.map
        (fun it => it.id)) = [2] := by
  refine ⟨?_, ?_, by decide⟩
  · intro h
    unfold renderHistoryWithQuery
    simp [h]
  · intro h
    constructor
    · unfold renderHistoryWithQuery
      rw [if_neg h]
    · intro it
      show it ∈ (renderHistoryWithQuery store query items).2 ↔ _
      unfold renderHistoryWithQuery
      rw [if_neg h]
      dsimp only
      rw [List.mem_filter]
      constructor
      · rintro ⟨hmem, hmatch⟩
        refine ⟨hmem, ?_⟩
        intro t ht
        have hall := (List.all_eq_true.mp hmatch) t ht
        rcases Bool.or_eq_true_iff.mp hall with hx | hx
        · left
          obtain ⟨l, r, hr⟩ := (occursIn_iff t.data
            (jsToLowerCase (it.tscript.getD "")).data).mp hx
          exact ⟨l, r, hr⟩
        · right
          obtain ⟨l, r, hr⟩ := (occursIn_iff t.data
            (jsJoin " " (it.imageTags.getD [])).data).mp hx
          exact ⟨l, r, hr⟩
      · rintro ⟨hmem, hterms⟩
        refine ⟨hmem, ?_⟩
        refine List.all_eq_true.mpr (fun t ht => ?_)
        rcases hterms t ht with ⟨l, r, hr⟩ | ⟨l, r, hr⟩
        · exact Bool.or_eq_true_iff.mpr (Or.inl
            ((occursIn_iff t.data _).mpr ⟨l, r, hr⟩))
        · exact Bool.or_eq_true_iff.mpr (Or.inr
            ((occursIn_iff t.data _).mpr ⟨l, r, hr⟩))

/-- Witness for C4 (amended): a whitespace query shows all entries, and
the non-trivial example query filters as proved. -/
theorem c4_search_semantics_witness :
    renderHistoryWithQuery exStore "   " exEntries = (exEntries, exEntries)
    ∧ ((renderHistoryWithQuery exStore "happy quiet" exEntries).1
        = exEntries.map (fun it => (ensureEntryCached exStore it).1)) :=
  ⟨(c4_search_semantics exStore "   " exEntries).1 (by decide),
   ((c4_search_semantics exStore "happy quiet" exEntries).2.1 (by decide)).1⟩

end Lunori
